import Mathlib

/-!
Verification development for the habits application
(settings store `src/stores/settingsStore.ts`, settings page, and the
habit history calendar component).

The embedding is shallow:

* Calendar dates are modelled as integers counting days from a fixed
  epoch; by convention a day `d` with `d % 7 = 0` is a Sunday, so
  `d % 7` is the weekday index (0 = Sunday .. 6 = Saturday) returned by
  `dayjs().day()`.  A `DateKey` (the `YYYY-MM-DD` string produced by
  `getDateKey`) identifies a calendar day uniquely, so the day number
  itself stands in for the key.
* `localStorage` is modelled as an optional stored value
  (`Option StoredString`); `getItem` returning `null` is `none`.
  Stored strings are abstracted to the shapes that matter to the code:
  the empty string (falsy in JS), a string `JSON.parse` rejects by
  throwing, and a string holding a JSON value.  The JSON values the
  store can meet are abstracted to `JsonLite`: an object that may or
  may not carry a `startOfWeek` field, or some other non-object value
  (represented by a number), on which property access yields
  `undefined`.
* Code that can throw (`JSON.parse`) is embedded in `Except Unit`.
-/

/-! ## Settings store (`src/stores/settingsStore.ts`) -/

/-- A JSON value as far as the settings code can observe it:
`obj f` is an object whose `startOfWeek` property reads back `f`
(`none` meaning the property is absent, i.e. `undefined`);
`num n` is any non-object JSON value, whose `startOfWeek` property
access yields `undefined`. -/
inductive JsonLite where
  | num (n : Int)
  | obj (startOfWeekField : Option Int)
deriving DecidableEq

/-- A value stored under the `"habits.settings"` key, abstracted to the
three cases the code distinguishes: the empty string (falsy),
a malformed string that `JSON.parse` throws on, and a string carrying a
JSON value. -/
inductive StoredString where
  | empty
  | malformed
  | json (v : JsonLite)
deriving DecidableEq

/-- JS truthiness of the stored string (`value ? _ : _`): only the
empty string is falsy. -/
def isTruthy : StoredString → Bool
  | .empty => false
  | .malformed => true
  | .json _ => true

/-- `JSON.parse` on the stored string: throws (`Except.error`) on a
malformed string and on the empty string, otherwise returns the parsed
value. -/
def jsonParse : StoredString → Except Unit JsonLite
  | .empty => .error ()
  | .malformed => .error ()
  | .json v => .ok v

/-- Optional-chaining read `v?.startOfWeek` on a parsed JSON value:
`none` models `undefined`. -/
def jsonStartOfWeek : JsonLite → Option Int
  | .num _ => none
  | .obj f => f

/-- `loadSettings` (settingsStore.ts lines 14-17):
`const value = localStorage.getItem(SETTINGS_KEY); return value ?
JSON.parse(value) : null;`.  The storage cell is `none` when no record
is persisted.  `JSON.parse` may throw, hence the `Except`. -/
def loadSettings (storage : Option StoredString) : Except Unit (Option JsonLite) :=
  match storage with
  | none => .ok none
  | some s => if isTruthy s then (jsonParse s).map some else .ok none

/-- The settings store's observable state: the `startOfWeek` field.
The TypeScript type is `WeekDay = 0 | .. | 6`, but types are erased at
runtime and no validation is performed, so the model uses `Int`. -/
structure SettingsStore where
  startOfWeek : Int
deriving DecidableEq

/-- Module initialization plus `SettingsStore` construction
(`const savedSettings = loadSettings();` and the field initializer
`startOfWeek = savedSettings?.startOfWeek ?? 0`). A `JSON.parse` fault
during `loadSettings` propagates; otherwise a missing record or a
record without the field defaults to 0. -/
def mkSettingsStore (storage : Option StoredString) : Except Unit SettingsStore :=
  (loadSettings storage).map fun saved =>
    { startOfWeek := (saved.bind jsonStartOfWeek).getD 0 }

/-- `updateSettings({ startOfWeek })` (lines 28-32): destructures the
partial record; if the field is `undefined` (`none`) the store is left
unchanged, otherwise it is overwritten. -/
def SettingsStore.updateSettings (st : SettingsStore) (startOfWeekField : Option Int) :
    SettingsStore :=
  match startOfWeekField with
  | some v => { st with startOfWeek := v }
  | none => st

/-- `setStartOfWeek(value)` (lines 34-36): unconditional overwrite. -/
def SettingsStore.setStartOfWeek (_st : SettingsStore) (value : Int) : SettingsStore :=
  { startOfWeek := value }

/-- `saveSettings` (lines 11-13): `JSON.stringify(settings)` of the
store serializes its one own enumerable property, producing the string
form of an object carrying `startOfWeek`. -/
def saveSettings (st : SettingsStore) : StoredString :=
  .json (.obj (some st.startOfWeek))

/-- The `autorun(() => saveSettings(settingsStore))` reaction (line 41):
after every mutation the storage cell synchronously holds the
serialization of the current store. -/
def persistedAfter (st : SettingsStore) : Option StoredString :=
  some (saveSettings st)

/-- The `window.addEventListener("storage", ...)` handler (lines 43-47):
if the event's key is `"habits.settings"` and its `newValue` is truthy
(non-null, non-empty), parse it (`JSON.parse` may throw) and apply it
via `updateSettings`; otherwise the store is untouched. -/
def handleStorageEvent (st : SettingsStore) (key : String)
    (newValue : Option StoredString) : Except Unit SettingsStore :=
  match newValue with
  | some s =>
    if key == "habits.settings" && isTruthy s then
      (jsonParse s).map fun v => st.updateSettings (jsonStartOfWeek v)
    else .ok st
  | none => .ok st

/-! ## Paging state of the calendar (`HabitHistoryCalendar`, lines 31-33 and 93-99) -/

/-- The two paging controls. -/
inductive PagingAction where
  | shiftLeft
  | shiftRight
deriving DecidableEq

/-- `shiftLeft = () => setOffset(offset + 1)` and
`shiftRight = () => setOffset(Math.max(0, offset - 1))`. -/
def applyPaging (offset : Int) : PagingAction → Int
  | .shiftLeft => offset + 1
  | .shiftRight => max 0 (offset - 1)

/-- The offset reached from the initial state `useState(0)` by a
sequence of paging actions. -/
def runPaging (acts : List PagingAction) : Int :=
  acts.foldl applyPaging 0

/-- The shift-right button's `disabled={offset === 0}` prop. -/
def shiftRightDisabled (offset : Int) : Bool :=
  offset == 0

/-! ## Weekday labels (`WeekDayLabels`, lines 214-244)

The component rotates the weekday names with
`[...weekDays.slice(startIndex), ...weekDays.slice(0, startIndex)]`.
`Array.prototype.slice` clamps its argument: a negative index counts
from the end (clamped below at 0), a nonnegative one is clamped above
at the length. -/

/-- The JS resolution of a (possibly negative, possibly out-of-range)
slice index against a list of length `len`. -/
def jsSliceIndex (len : Nat) (i : Int) : Nat :=
  if i < 0 then (len + i).toNat else min i.toNat len

/-- `l.slice(s)`: drop the first `jsSliceIndex` elements. -/
def jsSliceFrom (l : List String) (s : Int) : List String :=
  l.drop (jsSliceIndex l.length s)

/-- `l.slice(0, e)`: take the first `jsSliceIndex` elements. -/
def jsSliceUpTo (l : List String) (e : Int) : List String :=
  l.take (jsSliceIndex l.length e)

/-- The base weekday abbreviation list, Sunday first. -/
def weekDayNames : List String :=
  ["Sun", "Mon", "Tue", "Wed", "Thu", "Fri", "Sat"]

/-- The label sequence rendered by `WeekDayLabels` for a given
`settingsStore.startOfWeek` (read top to bottom). -/
def weekDayLabels (startOfWeek : Int) : List String :=
  jsSliceFrom weekDayNames startOfWeek ++ jsSliceUpTo weekDayNames startOfWeek

/-! ## Habit entries and the cell value lookup -/

/-- An `Entry` of the habit data model: `interface Entry` with a numeric
`value`. -/
structure Entry where
  value : Int
deriving DecidableEq

/-- A habit's `entries` mapping, keyed by the day number standing in for
the `DateKey` string (`getDateKey` is injective on calendar days). -/
def Entries : Type := Int → Option Entry

/-- The read `habit.entries[dateKey]?.value ?? 0`, used both by the
grid (`weekValues.push(habit.entries[dateKey]?.value ?? 0)`, line 59)
and by the progress modal's `value` prop (line 170). -/
def entryValue (entries : Entries) (d : Int) : Int :=
  match entries d with
  | some e => e.value
  | none => 0

/-- The cell's styling discriminator: the rect/text class strings are
chosen by `value ? active : inactive`, i.e. by the JS truthiness of the
number.  `true` means the "active" tint is used. -/
def cellActive (value : Int) : Bool :=
  value != 0

/-- The `value` prop passed to `UpdateHabitProgressModal` for a selected
date key (line 170), which is the same lookup expression. -/
def modalValue (entries : Entries) (selectedDateKey : Int) : Int :=
  entryValue entries selectedDateKey

/-! ## Calendar windowing (`HabitHistoryCalendar`, lines 38-72)

Dates are integer day numbers; `weekday d = d % 7` with residue 0 being
Sunday, matching `dayjs().day()`.  `startOf("week")` under the default
locale moves back to the Sunday of the date's week. -/

/-- Layout constants (lines 19-23). -/
def RECT_SIZE : Int := 11

/-- Gap between cells (line 20). -/
def CELL_SPACING : Int := 1

/-- `CELL_SIZE = RECT_SIZE + CELL_SPACING` (line 23). -/
def CELL_SIZE : Int := RECT_SIZE + CELL_SPACING

/-- Header band height (line 21). -/
def HEADER_SIZE : Int := 8

/-- `dayjs(...).day()`: weekday index, 0 = Sunday .. 6 = Saturday. -/
def weekday (d : Int) : Int := d % 7

/-- `startOf("week")`: the Sunday on or before `d`. -/
def startOfWeekSunday (d : Int) : Int := d - weekday d

/-- `endDate.diff(startDate, "weeks")`: dayjs truncates the quotient
toward zero, which is `Int.tdiv` of the day difference by 7. -/
def diffWeeks (endDate startDate : Int) : Int :=
  Int.tdiv (endDate - startDate) 7

/-- The `startDate` computation (lines 42-50): take `endDate = today -
offset` weeks, move to its week's Sunday, go back `totalWeeks` weeks,
advance by `startOfWeek` days, and add one week back when the span
still covers `totalWeeks` whole weeks. -/
def computeStartDate (today : Int) (offset : Nat) (totalWeeks : Nat)
    (startOfWeek : Int) : Int :=
  let endDate := today - 7 * offset
  let s0 := startOfWeekSunday endDate - 7 * totalWeeks + startOfWeek
  if (totalWeeks : Int) ≤ diffWeeks endDate s0 then s0 + 7 else s0

/-- The inner loop over `day = 0..6` (lines 56-66): push the looked-up
value for the walked date, and break — without advancing the date —
once the walked date's key equals today's key.  Returns the row and the
date the walk stopped at (the mutable `date` after the loop). -/
def fillWeek (entries : Entries) (today : Int) :
    Nat → Int → List Int × Int
  | 0, date => ([], date)
  | n + 1, date =>
    let v := entryValue entries date
    if date = today then ([v], date)
    else
      let rest := fillWeek entries today n (date + 1)
      (v :: rest.1, rest.2)

/-- The outer loop over `week = 0..totalWeeks-1` (lines 55-67),
threading the mutable `date` through the week fills. -/
def buildWeeks (entries : Entries) (today : Int) :
    Nat → Int → List (List Int)
  | 0, _ => []
  | w + 1, date =>
    let wk := fillWeek entries today 7 date
    wk.1 :: buildWeeks entries today w wk.2

/-- The computed `data` value (lines 38-72): the resolved `startDate`
and the `weeks` grid. -/
structure CalendarData where
  startDate : Int
  weeks : List (List Int)
deriving DecidableEq

/-- `useMemo(computed(...))` body: `nowDateKey` is today's key
regardless of `offset`. -/
def calendarData (entries : Entries) (today : Int) (offset : Nat)
    (totalWeeks : Nat) (startOfWeek : Int) : CalendarData :=
  let startDate := computeStartDate today offset totalWeeks startOfWeek
  { startDate := startDate
    weeks := buildWeeks entries today totalWeeks startDate }

/-- `indexesToDate(weekIndex, dayIndex) = startDate + weekIndex*7 +
dayIndex` days (lines 74-76): the calendar date a populated cell
corresponds to. -/
def indexesToDate (startDate : Int) (weekIndex dayIndex : Nat) : Int :=
  startDate + 7 * weekIndex + dayIndex

/-! ## Month labels (`MonthLabels`, lines 182-212)

`isSame(date, "month")` compares calendar year and month, so the model
needs the civil (proleptic Gregorian) calendar.  `civilYM` converts a
day number (days since 1970-01-01) to its (year, month) pair, using the
standard era-based algorithm with floor division (`/` and `%` on `Int`
are Euclidean, which for the positive divisors used here is floor
division). -/

/-- Year and month (1-12) of a day number (days since 1970-01-01). -/
def civilYM (z : Int) : Int × Int :=
  let z' := z + 719468
  let era := z' / 146097
  let doe := z' - era * 146097
  let yoe := (doe - doe / 1460 + doe / 36524 - doe / 146096) / 365
  let doy := doe - (365 * yoe + yoe / 4 - yoe / 100)
  let mp := (5 * doy + 2) / 153
  let m := mp + (if mp < 10 then 3 else -9)
  (if m ≤ 2 then yoe + era * 400 + 1 else yoe + era * 400, m)

/-- The body of the `MonthLabels` loop (lines 191-208): starting at
loop index `i` with `n` iterations left, walk `date = startDate + 7*i`
and `nextDate = date + 7`; when the two fall in different calendar
months, emit a label at `x = CELL_SIZE * i + 1` showing `date`'s
month.  Each emitted label is modelled as its `x` position paired with
the (year, month) it displays. -/
def monthLabelsFrom (startDate : Int) : Nat → Nat → List (Int × (Int × Int))
  | _, 0 => []
  | i, n + 1 =>
    let date := startDate + 7 * i
    let nextDate := date + 7
    (if civilYM nextDate ≠ civilYM date then
      [(CELL_SIZE * i + 1, civilYM date)]
    else []) ++ monthLabelsFrom startDate (i + 1) n

/-- `MonthLabels` (lines 182-212): the loop runs for
`i = 0 .. totalWeeks - 2`, i.e. `totalWeeks - 1` iterations starting
at index 0. -/
def monthLabels (startDate : Int) (totalWeeks : Nat) : List (Int × (Int × Int)) :=
  monthLabelsFrom startDate 0 (totalWeeks - 1)

/-! ## Helper lemmas -/

/-- The default value of `getLastD` is irrelevant on a nonempty list. -/
theorem getLastD_default_irrel {α : Type _} (l : List α) (a b : α) (h : l ≠ []) :
    l.getLastD a = l.getLastD b := by
  cases l with
  | nil => cases h rfl
  | cons x xs => rw [List.getLastD_cons, List.getLastD_cons]

/-- `Int.tdiv` by 7 agrees with Euclidean division on nonnegative
dividends. -/
theorem tdiv_seven_eq_ediv (a : Int) (h : 0 ≤ a) : Int.tdiv a 7 = a / 7 := by
  obtain ⟨n, rfl⟩ := Int.eq_ofNat_of_zero_le h
  rfl

/-- Rotating the weekday list by dropping/taking a clamped index is a
`List.rotate`. -/
theorem weekDayNames_dropTake_rotate (i : Nat) (h : i ≤ 7) :
    weekDayNames.drop i ++ weekDayNames.take i = weekDayNames.rotate (i % 7) := by
  interval_cases i <;> decide

/-- Folding paging actions from a nonnegative offset stays
nonnegative. -/
theorem foldl_applyPaging_nonneg (acts : List PagingAction) :
    ∀ o : Int, 0 ≤ o → 0 ≤ acts.foldl applyPaging o := by
  induction acts with
  | nil => intro o h; simpa using h
  | cons a t ih =>
    intro o h
    cases a with
    | shiftLeft => exact ih (o + 1) (by omega)
    | shiftRight => exact ih (max 0 (o - 1)) (le_max_left _ _)

/-! ## Claims about the settings store -/

/-- C5: with no record persisted under the settings key (absent value),
store construction succeeds and `startOfWeek` is 0. -/
theorem absent_settings_default_zero :
    mkSettingsStore none = Except.ok { startOfWeek := 0 } := rfl

/-- C4 (counterexample): a persisted value that is present but not
parsable as JSON makes store construction fault (the `JSON.parse`
exception propagates), contradicting the claim that construction
completes with `startOfWeek = 0` and no fault on this path. -/
theorem malformed_settings_fault :
    mkSettingsStore (some StoredString.malformed) = Except.error () := rfl

/-- C4 (amended): if the persisted value is present but not
syntactically valid JSON, construction faults (the parse error
propagates and construction does not complete); if it parses as JSON
but the result has no `startOfWeek` field, or if it is the empty
string, construction completes with `startOfWeek = 0`. -/
theorem unparsable_settings_construction (s : StoredString) :
    (isTruthy s = true → jsonParse s = Except.error () →
      mkSettingsStore (some s) = Except.error ()) ∧
    (∀ v : JsonLite, jsonParse s = Except.ok v → jsonStartOfWeek v = none →
      mkSettingsStore (some s) = Except.ok { startOfWeek := 0 }) ∧
    (isTruthy s = false → mkSettingsStore (some s) = Except.ok { startOfWeek := 0 }) := by
  cases s with
  | empty =>
    refine ⟨fun h _ => by simp [isTruthy] at h, fun v hv => by simp [jsonParse] at hv,
      fun _ => rfl⟩
  | malformed =>
    refine ⟨fun _ _ => rfl, fun v hv => by simp [jsonParse] at hv,
      fun h => by simp [isTruthy] at h⟩
  | json v =>
    refine ⟨fun _ h => by simp [jsonParse] at h, fun w hw hnone => ?_,
      fun h => by simp [isTruthy] at h⟩
    have hvw : w = v := by simpa [jsonParse] using hw.symm
    subst hvw
    simp [mkSettingsStore, loadSettings, isTruthy, jsonParse, Except.map, hnone]

/-- C4 (witness): the amended theorem applied to a malformed stored
value and to a JSON number (a parsable value without the field). -/
theorem unparsable_settings_construction_witness :
    mkSettingsStore (some StoredString.malformed) = Except.error () ∧
    mkSettingsStore (some (StoredString.json (JsonLite.num 5))) =
      Except.ok { startOfWeek := 0 } :=
  ⟨(unparsable_settings_construction StoredString.malformed).1 rfl rfl,
   (unparsable_settings_construction (StoredString.json (JsonLite.num 5))).2.1
      (JsonLite.num 5) rfl rfl⟩

/-- C3: after `setStartOfWeek(3)` on a live store, whose mutation is
synchronously persisted by the autorun reaction, constructing a fresh
store from the same durable storage yields `startOfWeek = 3`. -/
theorem setStartOfWeek_roundTrip (st : SettingsStore) :
    mkSettingsStore (persistedAfter (st.setStartOfWeek 3)) =
      Except.ok { startOfWeek := 3 } := rfl

/-- C6: a storage event with the settings key and a non-empty new value
is parsed and applied as a partial update to the live store (in
particular a payload carrying `startOfWeek = 5` sets the live store's
field to 5); events with a different key, a null new value, or an empty
new value leave the store unchanged. -/
theorem storage_event_reconciliation (st : SettingsStore) :
    (∀ v : JsonLite,
      handleStorageEvent st "habits.settings" (some (StoredString.json v)) =
        Except.ok (st.updateSettings (jsonStartOfWeek v))) ∧
    handleStorageEvent st "habits.settings"
        (some (StoredString.json (JsonLite.obj (some 5)))) =
      Except.ok { startOfWeek := 5 } ∧
    (∀ (k : String) (nv : Option StoredString), k ≠ "habits.settings" →
      handleStorageEvent st k nv = Except.ok st) ∧
    handleStorageEvent st "habits.settings" (some StoredString.empty) = Except.ok st ∧
    handleStorageEvent st "habits.settings" none = Except.ok st := by
  refine ⟨fun v => ?_, ?_, fun k nv hk => ?_, ?_, rfl⟩
  · simp [handleStorageEvent, isTruthy, jsonParse, Except.map]
  · simp [handleStorageEvent, isTruthy, jsonParse, Except.map, jsonStartOfWeek,
      SettingsStore.updateSettings]
  · cases nv with
    | none => rfl
    | some s =>
      have hb : (k == "habits.settings") = false := beq_eq_false_iff_ne.mpr hk
      simp [handleStorageEvent, hb]
  · simp [handleStorageEvent, isTruthy]

/-- C6 (witness): the theorem applied to a concrete store, with the
different-key clause discharged at the key `"habits.theme"`. -/
theorem storage_event_reconciliation_witness :
    handleStorageEvent { startOfWeek := 0 } "habits.settings"
        (some (StoredString.json (JsonLite.obj (some 5)))) =
      Except.ok { startOfWeek := 5 } ∧
    handleStorageEvent { startOfWeek := 0 } "habits.theme" none =
      Except.ok { startOfWeek := 0 } :=
  ⟨(storage_event_reconciliation { startOfWeek := 0 }).2.1,
   (storage_event_reconciliation { startOfWeek := 0 }).2.2.1 "habits.theme" none
      (by decide)⟩

/-! ## Claims about paging and cell rendering -/

/-- C7: from offset 0, every sequence of shift-left/shift-right
invocations keeps the page offset nonnegative, and the shift-right
control's disabled prop is true exactly when the offset is 0. -/
theorem paging_bounds (acts : List PagingAction) :
    0 ≤ runPaging acts ∧
    ∀ offset : Int, shiftRightDisabled offset = true ↔ offset = 0 := by
  refine ⟨foldl_applyPaging_nonneg acts 0 le_rfl, fun o => ?_⟩
  simp [shiftRightDisabled]

/-- C9: a date key with no entry in the habit's mapping reads as value
0 at every read site: the grid cell value is 0 and styled inactive, and
the progress modal is pre-filled with 0. -/
theorem missing_entry_defaults (entries : Entries) (k : Int) (h : entries k = none) :
    entryValue entries k = 0 ∧
    cellActive (entryValue entries k) = false ∧
    modalValue entries k = 0 := by
  have hv : entryValue entries k = 0 := by unfold entryValue; rw [h]
  exact ⟨hv, by rw [hv]; rfl, hv⟩

/-- C9 (witness): the theorem applied to the empty entry mapping at
day 0. -/
theorem missing_entry_defaults_witness :
    entryValue (fun _ => none) 0 = 0 ∧
    cellActive (entryValue (fun _ => none) 0) = false ∧
    modalValue (fun _ => none) 0 = 0 :=
  missing_entry_defaults (fun _ => none) 0 rfl

/-! ## Claims about the weekday labels -/

/-- C8: for every `startOfWeek` in `[0,6]` the rendered weekday label
sequence is the Sunday-first abbreviation list rotated left by
`startOfWeek`; in particular for `startOfWeek = 2` it is Tuesday
first. -/
theorem weekDayLabels_rotation (s : Nat) (hs : s ≤ 6) :
    weekDayLabels (s : Int) = weekDayNames.rotate s ∧
    weekDayLabels 2 = ["Tue", "Wed", "Thu", "Fri", "Sat", "Sun", "Mon"] := by
  refine ⟨?_, by decide⟩
  interval_cases s <;> decide

/-- C8 (witness): the theorem applied at `startOfWeek = 2`. -/
theorem weekDayLabels_rotation_witness :
    weekDayLabels ((2 : Nat) : Int) = weekDayNames.rotate 2 ∧
    weekDayLabels 2 = ["Tue", "Wed", "Thu", "Fri", "Sat", "Sun", "Mon"] :=
  weekDayLabels_rotation 2 (by decide)

/-- C10: for every integer `startOfWeek`, including out-of-range
values, the weekday label renderer produces exactly 7 labels that are a
rotation of the seven abbreviations, and for every `startOfWeek ≥ 7`
the slice-based rotation degenerates to the unrotated Sunday-first
list. -/
theorem weekDayLabels_always_rotation (s : Int) :
    (weekDayLabels s).length = 7 ∧
    (∃ k : Nat, weekDayLabels s = weekDayNames.rotate k) ∧
    (7 ≤ s → weekDayLabels s = weekDayNames) := by
  have hle : jsSliceIndex 7 s ≤ 7 := by unfold jsSliceIndex; split <;> omega
  have hform : weekDayLabels s
      = weekDayNames.drop (jsSliceIndex 7 s) ++ weekDayNames.take (jsSliceIndex 7 s) := rfl
  rw [hform, weekDayNames_dropTake_rotate _ hle]
  refine ⟨by rw [List.length_rotate]; rfl, ⟨_, rfl⟩, fun h7 => ?_⟩
  have h7' : jsSliceIndex 7 s = 7 := by unfold jsSliceIndex; split <;> omega
  rw [h7']
  decide

/-- C10 (witness): the theorem applied at the out-of-range value 9. -/
theorem weekDayLabels_always_rotation_witness :
    (weekDayLabels 9).length = 7 ∧ weekDayLabels 9 = weekDayNames :=
  ⟨(weekDayLabels_always_rotation 9).1,
   (weekDayLabels_always_rotation 9).2.2 (by decide)⟩

/-! ## Claims about the month labels -/

/-- C2 (counterexample): for the concrete 4-week window starting at day
19772 (2024-02-19, a Monday), the month boundary lies between week
index 1 (week-start 2024-02-26, February) and week index 2 (week-start
2024-03-04, March); exactly one label is emitted, but its horizontal
position is 13 = `CELL_SIZE * 1 + 1`, the offset of week index 1's
column, not week index 2's column offset (24, or 25 with the same +1
text nudge). -/
theorem monthLabels_example_position :
    civilYM (19772 + 7) = civilYM 19772 ∧
    civilYM (19772 + 14) ≠ civilYM (19772 + 7) ∧
    civilYM (19772 + 21) = civilYM (19772 + 14) ∧
    (monthLabels 19772 4).map Prod.fst = [13] ∧
    (13 : Int) ≠ CELL_SIZE * 2 ∧
    (13 : Int) ≠ CELL_SIZE * 2 + 1 := by
  decide

/-- C2 (amended): walking consecutive week-start pairs, a label is
emitted for each pair falling in different calendar months, positioned
at the horizontal offset of the EARLIER column of the pair
(`x = CELL_SIZE * i + 1` for the pair `(i, i+1)`) and showing the
earlier week-start's month; for a 4-week window whose month boundary
lies between week index 1 and week index 2, exactly one label is
emitted, at week index 1's column offset. -/
theorem monthLabels_boundary (start : Int)
    (h01 : civilYM (start + 7) = civilYM start)
    (h12 : civilYM (start + 14) ≠ civilYM (start + 7))
    (h23 : civilYM (start + 21) = civilYM (start + 14)) :
    monthLabels start 4 = [(CELL_SIZE * 1 + 1, civilYM (start + 7))] := by
  show monthLabelsFrom start 0 3 = _
  rw [monthLabelsFrom, monthLabelsFrom, monthLabelsFrom, monthLabelsFrom]
  norm_num
  have h12' : civilYM (start + 7 + 7) ≠ civilYM (start + 7) := by
    rwa [show start + 7 + 7 = start + 14 by ring]
  have h23' : civilYM (start + 14 + 7) = civilYM (start + 14) := by
    rwa [show start + 14 + 7 = start + 21 by ring]
  rw [if_pos h01, if_neg h12', if_pos h23']
  simp

/-- C2 (witness): the amended theorem applied to the concrete window
starting 2024-02-19 (day 19772). -/
theorem monthLabels_boundary_witness :
    monthLabels 19772 4 = [(CELL_SIZE * 1 + 1, civilYM (19772 + 7))] :=
  monthLabels_boundary 19772 (by decide) (by decide) (by decide)

/-! ## The windowing claim -/

/-- The `startDate` of the offset-0 window is the configured week-start
on or before today, moved back `totalWeeks - 1` whole weeks. -/
theorem computeStartDate_zero_offset (today : Int) (T : Nat) (s : Int)
    (hT : 1 ≤ T) (hs0 : 0 ≤ s) (hs : s ≤ 6) :
    computeStartDate today 0 T s = today - (today - s) % 7 - 7 * ((T : Int) - 1) := by
  unfold computeStartDate startOfWeekSunday weekday diffWeeks
  simp only [Nat.cast_zero, mul_zero, sub_zero]
  rw [tdiv_seven_eq_ediv _ (by omega)]
  split <;> omega

/-- A week fill that never meets today runs all `n` iterations and
leaves the walked date advanced by `n`. -/
theorem fillWeek_no_hit (entries : Entries) (today : Int) :
    ∀ (n : Nat) (date : Int), date + n ≤ today ∨ today < date →
      (fillWeek entries today n date).1.length = n ∧
      (fillWeek entries today n date).2 = date + n := by
  intro n
  induction n with
  | zero => intro date _; simp [fillWeek]
  | succ m ih =>
    intro date h
    have hne : date ≠ today := by omega
    have hrec := ih (date + 1) (by omega)
    simp only [fillWeek, if_neg hne]
    refine ⟨by simpa using hrec.1, ?_⟩
    rw [hrec.2]
    push_cast
    ring

/-- A week fill whose range contains today stops at today, with the
row holding one cell per day from the fill's start through today. -/
theorem fillWeek_hit (entries : Entries) (today : Int) :
    ∀ (n : Nat) (date : Int), date ≤ today → today < date + n →
      (fillWeek entries today n date).1.length = (today - date).toNat + 1 ∧
      (fillWeek entries today n date).2 = today := by
  intro n
  induction n with
  | zero => intro date h1 h2; exfalso; omega
  | succ m ih =>
    intro date h1 h2
    by_cases hd : date = today
    · subst hd
      simp [fillWeek]
    · have hrec := ih (date + 1) (by omega) (by push_cast at h2 ⊢; omega)
      simp only [fillWeek, if_neg hd]
      refine ⟨?_, hrec.2⟩
      simp only [List.length_cons, hrec.1]
      omega

/-- Shape of the week grid when today falls `p` days into the last of
`w + 1` columns: the grid has `w + 1` columns, the last column holds
`p + 1` cells, and every populated cell's walked date is at most
today. -/
theorem buildWeeks_shape (entries : Entries) (today : Int) :
    ∀ (w : Nat) (date p : Int), 0 ≤ p → p ≤ 6 →
      today = date + 7 * w + p →
      (buildWeeks entries today (w + 1) date).length = w + 1 ∧
      ((buildWeeks entries today (w + 1) date).getLastD []).length = p.toNat + 1 ∧
      (∀ j d : Nat, d < ((buildWeeks entries today (w + 1) date).getD j []).length →
        date + 7 * j + d ≤ today) := by
  intro w
  induction w with
  | zero =>
    intro date p hp0 hp6 htoday
    have hfill := fillWeek_hit entries today 7 date (by omega) (by push_cast; omega)
    have hgrid : buildWeeks entries today 1 date = [(fillWeek entries today 7 date).1] :=
      rfl
    rw [hgrid]
    refine ⟨rfl, ?_, ?_⟩
    · rw [List.getLastD_cons, List.getLastD_nil, hfill.1]
      omega
    · intro j d hd
      cases j with
      | zero =>
        rw [List.getD_cons_zero, hfill.1] at hd
        push_cast
        omega
      | succ k =>
        rw [List.getD_cons_succ] at hd
        simp [List.getD] at hd
  | succ m ih =>
    intro date p hp0 hp6 htoday
    have hfull := fillWeek_no_hit entries today 7 date (Or.inl (by push_cast at htoday ⊢; omega))
    have hnext : (fillWeek entries today 7 date).2 = date + 7 := by
      rw [hfull.2]; norm_num
    have hrec := ih (date + 7) p hp0 hp6 (by push_cast at htoday ⊢; omega)
    have hgrid : buildWeeks entries today (m + 1 + 1) date =
        (fillWeek entries today 7 date).1 :: buildWeeks entries today (m + 1) (date + 7) := by
      rw [buildWeeks, hnext]
    rw [hgrid]
    have hne : buildWeeks entries today (m + 1) (date + 7) ≠ [] := by
      intro hnil
      rw [hnil] at hrec
      simp at hrec
    refine ⟨by simp [hrec.1], ?_, ?_⟩
    · rw [List.getLastD_cons,
        getLastD_default_irrel _ _ ([] : List Int) hne, hrec.2.1]
    · intro j d hd
      cases j with
      | zero =>
        rw [List.getD_cons_zero, hfull.1] at hd
        push_cast at htoday ⊢
        omega
      | succ k =>
        rw [List.getD_cons_succ] at hd
        have := hrec.2.2 k d hd
        push_cast at this ⊢
        omega

/-- C1: at page offset 0, for any configured `startOfWeek` in `[0,6]`
and any habit entries, the window has `totalWeeks` columns, the last
column's row array has exactly (today's weekday position relative to
the configured start-of-week) + 1 cells — strictly fewer than 7 while
the week is in progress — and no populated cell corresponds to a date
after today. -/
theorem windowing_current_week (entries : Entries) (today : Int)
    (totalWeeks : Nat) (s : Int)
    (hT : 1 ≤ totalWeeks) (hs0 : 0 ≤ s) (hs : s ≤ 6) :
    (calendarData entries today 0 totalWeeks s).weeks.length = totalWeeks ∧
    ((calendarData entries today 0 totalWeeks s).weeks.getLastD []).length =
      ((weekday today - s) % 7).toNat + 1 ∧
    ((weekday today - s) % 7 < 6 →
      ((calendarData entries today 0 totalWeeks s).weeks.getLastD []).length < 7) ∧
    (∀ w d : Nat,
      d < ((calendarData entries today 0 totalWeeks s).weeks.getD w []).length →
      indexesToDate (calendarData entries today 0 totalWeeks s).startDate w d ≤ today) := by
  obtain ⟨T', rfl⟩ : ∃ T', totalWeeks = T' + 1 := ⟨totalWeeks - 1, by omega⟩
  have hwd : weekday today = today % 7 := rfl
  have hp0 : 0 ≤ (weekday today - s) % 7 := by rw [hwd]; omega
  have hp6 : (weekday today - s) % 7 ≤ 6 := by rw [hwd]; omega
  have hsd : computeStartDate today 0 (T' + 1) s =
      today - (weekday today - s) % 7 - 7 * T' := by
    rw [computeStartDate_zero_offset today (T' + 1) s (by omega) hs0 hs, hwd]
    push_cast
    omega
  have hw : (calendarData entries today 0 (T' + 1) s).weeks =
      buildWeeks entries today (T' + 1) (computeStartDate today 0 (T' + 1) s) := rfl
  have hsdate : (calendarData entries today 0 (T' + 1) s).startDate =
      computeStartDate today 0 (T' + 1) s := rfl
  have hshape := buildWeeks_shape entries today T'
    (today - (weekday today - s) % 7 - 7 * T') ((weekday today - s) % 7)
    hp0 hp6 (by ring)
  rw [hw, hsdate, hsd]
  refine ⟨hshape.1, hshape.2.1, fun hlt => ?_, fun w d hd => ?_⟩
  · rw [hshape.2.1]
    omega
  · have := hshape.2.2 w d hd
    unfold indexesToDate
    omega

/-- C1 (witness): the theorem applied to the empty entry mapping, today
= day 19772 (a Monday in the model's weekday convention modulo the
epoch choice), 12 columns, and `startOfWeek = 1`. -/
theorem windowing_current_week_witness :
    ((calendarData (fun _ => none) 19772 0 12 1).weeks.getLastD []).length =
      ((weekday 19772 - 1) % 7).toNat + 1 ∧
    (∀ w d : Nat,
      d < ((calendarData (fun _ => none) 19772 0 12 1).weeks.getD w []).length →
      indexesToDate (calendarData (fun _ => none) 19772 0 12 1).startDate w d ≤ 19772) :=
  ⟨(windowing_current_week (fun _ => none) 19772 12 1 (by decide) (by decide) (by decide)).2.1,
   (windowing_current_week (fun _ => none) 19772 12 1 (by decide) (by decide)
      (by decide)).2.2.2⟩
